import Mathlib

/-!
# Verification of the delta-inspect clustering / statistics engine

A shallow embedding of the overlap-detection and statistics core of
`delta-inspect` (`delta_inspect/clustering/core.py`,
`delta_inspect/util/statistics.py`, `delta_inspect/util/history.py`) together
with models of the external library behaviour the code relies on
(polars `hist` / `quantile` / `std` / `max`, the libspatialindex R-tree
`count`, and pydantic field validation).

Numeric values are modelled as rationals `ℚ`; the Python code works in IEEE
doubles, but every claim settled here is about which formula the code
computes, not about rounding.  Fallible code paths (a raised exception or a
pydantic `ValidationError`) are modelled as `none` / `Except.error`.
-/

namespace DeltaInspect

/-- Model of `delta_inspect.util.model.Histogram`: parallel lists of bin
edges and counts.  The pydantic field `bins : list[int | float]` rejects a
null entry, so a Python `None` edge can never appear inside a constructed
`Histogram`; construction with a `None` edge raises instead (modelled by
`Option` at the call sites). -/
structure Histogram where
  bins : List ℚ
  cnts : List ℕ
  deriving DecidableEq, Repr

/-- Helper for the polars histogram model: counts for the right-closed
buckets `(lo, hi]` determined by the running lower edge `lo` and the
remaining upper edges. -/
def histCountsAux (values : List ℚ) : ℚ → List ℚ → List ℕ
  | _, [] => []
  | lo, hi :: rest =>
      values.countP (fun v => decide (lo < v ∧ v ≤ hi)) :: histCountsAux values hi rest

/-- Model of polars `Series.hist(bins=edges)` (polars ≥ 1.0, the behaviour
the repository's own comment in `compute_histogram_metrics` documents):
`n` explicit edges produce `n - 1` buckets, each right-closed `(lo, hi]`,
the first bucket additionally containing its left edge (`[e0, e1]`); values
outside `[e0, e(n-1)]` are not counted at all.  Only the counts are
returned here; the breakpoints polars reports are `edges.tail`. -/
def polarsHistCounts (values : List ℚ) : List ℚ → List ℕ
  | [] => []
  | [_] => []
  | e0 :: e1 :: rest =>
      values.countP (fun v => decide (e0 ≤ v ∧ v ≤ e1)) :: histCountsAux values e1 rest

/-- Model of polars `Series.max` / `Expr.max`: `none` on an empty series,
otherwise the maximum, computed as polars does by folding `max`. -/
def seriesMax : List ℚ → Option ℚ
  | [] => none
  | v :: vs => some (vs.foldl max v)

/-- Model of polars `Series.min` / `Expr.min`: `none` on an empty series. -/
def seriesMin : List ℚ → Option ℚ
  | [] => none
  | v :: vs => some (vs.foldl min v)

/-- Model of `compute_histogram_metrics(df, column, bins)` from
`delta_inspect/util/statistics.py`:

* `df_hist = df[column].hist(bins=bins)`; the reported breakpoints are
  `bins[1:]` and the counts are `polarsHistCounts`;
* the maximum observed value and the count of values `>= hist_bins[-1]`
  are appended as one extra bucket;
* the count of values `< bins[0]` is added to the first bucket.

`none` models a raised exception: an `IndexError` on `hist_bins[-1]` when
fewer than two edges are supplied, and the pydantic `ValidationError`
raised by `Histogram(bins=...)` when the sequence is empty (then
`df[column].max()` is Python `None` and `None` is appended to `bins`,
which `list[int | float]` rejects). -/
def compute_histogram_metrics (values : List ℚ) (bins : List ℚ) : Option Histogram :=
  match bins with
  | e0 :: e1 :: rest =>
      match seriesMax values with
      | none => none
      | some maxValue =>
          let histBins := e1 :: rest
          let histCnts := polarsHistCounts values (e0 :: e1 :: rest)
          let lastBin := histBins.getLastD 0
          let greaterThanMaxBin := values.countP (fun v => decide (lastBin ≤ v))
          let lowerThanMinBin := values.countP (fun v => decide (v < e0))
          match histCnts ++ [greaterThanMaxBin] with
          | [] => none
          | c0 :: cs => some ⟨histBins ++ [maxValue], (c0 + lowerThanMinBin) :: cs⟩
  | _ => none

/-- Modelled from the spec (claim C1's reading of §4.4): base buckets
`[e_i, e_{i+1})` — left-closed, right-open — with values strictly below
`e0` folded into the first bucket, plus one appended bucket counting the
values `≥ e(n-1)` whose edge is the maximum observed value (`e(n-1)`
itself when the sequence is empty). -/
def spec_histCounts (values : List ℚ) : List ℚ → List ℕ
  | [] => []
  | [_] => []
  | e0 :: e1 :: rest =>
      values.countP (fun v => decide (e0 ≤ v ∧ v < e1)) :: spec_histCounts values (e1 :: rest)

/-- Modelled from the spec (claim C1's reading of §4.4); see
`spec_histCounts`. -/
def spec_histogram (values : List ℚ) (bins : List ℚ) : Option Histogram :=
  match bins with
  | e0 :: e1 :: rest =>
      let histBins := e1 :: rest
      let lastBin := histBins.getLastD 0
      let appendedEdge := match seriesMax values with
        | none => lastBin
        | some m => m
      let histCnts := spec_histCounts values (e0 :: e1 :: rest)
      let greaterCnt := values.countP (fun v => decide (lastBin ≤ v))
      let lowerCnt := values.countP (fun v => decide (v < e0))
      match histCnts ++ [greaterCnt] with
      | [] => none
      | c0 :: cs => some ⟨histBins ++ [appendedEdge], (c0 + lowerCnt) :: cs⟩
  | _ => none

/-- Model of the result row of `compute_distribution_metrics`: the fields
polars produces for `count/min/quantiles/max/mean/std`.  Aggregates of an
empty series are null (`none`).  `stdSq` is the *square* of the `std`
column; the standard deviation itself is an irrational square root in
general, and two nonnegative reals are equal iff their squares are, so the
square determines it. -/
structure DistributionMetrics where
  count : ℕ
  min : Option ℚ
  q05 : Option ℚ
  q25 : Option ℚ
  q50 : Option ℚ
  q75 : Option ℚ
  q95 : Option ℚ
  max : Option ℚ
  mean : Option ℚ
  stdSq : Option ℚ
  deriving DecidableEq, Repr

/-- Model of polars `Expr.quantile(q)` with its default interpolation
`"nearest"`: sort the values and take the order statistic at index
`round((n - 1) * q)` — Rust `f64::round`, half away from zero, which for
the nonnegative arguments used here is `⌊(n - 1) * q + 1/2⌋`.  `none` on an
empty series. -/
def polarsQuantile (values : List ℚ) (q : ℚ) : Option ℚ :=
  if values = [] then none
  else
    let l := values.insertionSort (· ≤ ·)
    some (l.getD (Int.toNat ⌊((l.length : ℚ) - 1) * q + 1 / 2⌋) 0)

/-- Modelled from the spec (§4.4: "quantiles use linear interpolation
between order statistics"): with `h = (n - 1) * q`, `i = ⌊h⌋`, the result
is `sorted[i] + (h - i) * (sorted[i+1] - sorted[i])` (the last order
statistic when `i + 1` is out of range). -/
def spec_linear_quantile (values : List ℚ) (q : ℚ) : Option ℚ :=
  if values = [] then none
  else
    let l := values.insertionSort (· ≤ ·)
    let h := ((l.length : ℚ) - 1) * q
    let i := Int.toNat ⌊h⌋
    let lo := l.getD i 0
    let hi := l.getD (i + 1) lo
    some (lo + (h - ⌊h⌋) * (hi - lo))

/-- Model of polars `Expr.mean`: `none` on an empty series. -/
def seriesMean (values : List ℚ) : Option ℚ :=
  if values = [] then none else some (values.sum / values.length)

/-- Square of polars `Expr.std()` with its default `ddof = 1` (the sample
standard deviation): `Σ (x - mean)² / (n - 1)`.  polars yields null
whenever `n ≤ ddof`, i.e. when fewer than two values are present. -/
def stdSquared (values : List ℚ) : Option ℚ :=
  if 2 ≤ values.length then
    some ((values.map (fun x => (x - values.sum / values.length) ^ 2)).sum /
      ((values.length : ℚ) - 1))
  else none

/-- Modelled from the spec (§4.4: "`std` is the population (not sample)
standard deviation"): the square of the population standard deviation,
`Σ (x - mean)² / n`. -/
def spec_popVariance (values : List ℚ) : ℚ :=
  (values.map (fun x => (x - values.sum / values.length) ^ 2)).sum / values.length

/-- Model of `compute_distribution_metrics(df, column)` from
`delta_inspect/util/statistics.py`: one polars `select` computing
`len/min/quantile(.05 … .95)/max/mean/std` over the column. -/
def compute_distribution_metrics (values : List ℚ) : DistributionMetrics where
  count := values.length
  min := seriesMin values
  q05 := polarsQuantile values (1 / 20)
  q25 := polarsQuantile values (1 / 4)
  q50 := polarsQuantile values (1 / 2)
  q75 := polarsQuantile values (3 / 4)
  q95 := polarsQuantile values (19 / 20)
  max := seriesMax values
  mean := seriesMean values
  stdSq := stdSquared values

/-- An encoded bounding box: one `(low, high)` pair of encoded coordinates
per analyzed column, as produced by `apply_numerical_encoding` and handed
to the R-tree (`interleaved = False`, tuple `(min1, max1, min2, max2, …)`). -/
abbrev Box := List (ℚ × ℚ)

/-- The libspatialindex intersection test used by `rindex.count`:
axis-aligned boxes intersect iff their ranges intersect in every dimension,
with inclusive boundaries (touching boxes count). -/
def boxesIntersect (b q : Box) : Bool :=
  (b.zip q).all (fun p => decide (p.1.1 ≤ p.2.2 ∧ p.1.2 ≥ p.2.1))

/-- Model of `rindex.count(bbox)` over the index built by
`create_rtree_index`, which inserts every row's box: the number of inserted
boxes intersecting the query box (the query box itself included whenever it
is a member of the index). -/
def rtreeCount (boxes : List Box) (q : Box) : ℕ :=
  boxes.countP (fun b => boxesIntersect b q)

/-- Model of `get_overlapping_partitions_count`: for each indexed row the
value `rindex.count(row_bbox) - 1`.  Python integers are unbounded and may
go negative, hence `ℤ`. -/
def overlapCounts (boxes : List Box) : List ℤ :=
  boxes.map (fun b => (rtreeCount boxes b : ℤ) - 1)

/-- Model of `compute_overlap_metrics`: the pair
`(count_no_overlap, count_with_overlap)` given by
`overlap_count.eq(0).sum()` and `overlap_count.gt(0).sum()`. -/
def compute_overlap_metrics (counts : List ℤ) : ℕ × ℕ :=
  (counts.countP (fun c => decide (c = 0)), counts.countP (fun c => decide (0 < c)))

/-- One row of `df_encoded`: per analyzed column the encoded `(min, max)`
cells, each independently nullable (a missing statistic stays null through
`apply_numerical_encoding`). -/
abbrev EncodedRow := List (Option ℚ × Option ℚ)

/-- A row survives `remove_nulls` (`DataFrame.drop_nulls`) iff every cell is
non-null; the surviving row is its fully materialised box. -/
def denullRow : EncodedRow → Option Box
  | [] => some []
  | (some lo, some hi) :: t => (denullRow t).map (fun b => (lo, hi) :: b)
  | _ => none

/-- Model of `remove_nulls` over the whole frame. -/
def remove_nulls (rows : List EncodedRow) : List Box :=
  rows.filterMap denullRow

/-- The bounding-box invariant of the data model: `low ≤ high` in every
dimension. -/
def boxWF (b : Box) : Bool :=
  b.all (fun p => decide (p.1 ≤ p.2))

/-- Per-row form of `boxWF`: every fully populated cell has `min ≤ max`. -/
def rowWF (r : EncodedRow) : Bool :=
  r.all (fun p =>
    match p with
    | (some lo, some hi) => decide (lo ≤ hi)
    | _ => true)

/-- `BINS = list(range(17)) + [32, 64, 128]` from
`delta_inspect/clustering/core.py`. -/
def BINS : List ℚ :=
  ((List.range 17).map (fun n => (n : ℚ))) ++ [32, 64, 128]

/-- Model of the `Clustering` result (`delta_inspect/clustering/model.py`)
restricted to its numeric payload.  The pydantic fields
`mean/min/q05…q95/max : NUMERIC` are *not* optional — a null for any of
them raises a `ValidationError`; only `std` is declared `NUMERIC | None`. -/
structure ClusteringReport where
  count_no_overlap : ℕ
  count_with_overlap : ℕ
  count_without_min_max : ℕ
  count : ℕ
  min : ℚ
  q05 : ℚ
  q25 : ℚ
  q50 : ℚ
  q75 : ℚ
  q95 : ℚ
  max : ℚ
  mean : ℚ
  stdSq : Option ℚ
  hist : Histogram
  deriving DecidableEq, Repr

/-- Model of `clustering_health` downstream of `apply_numerical_encoding`
(its input here is `df_encoded`, one `EncodedRow` per active file of the
table): count the rows with any null (`count_without_min_max`), drop them,
build the R-tree over the rest, compute per-row overlap counts, the overlap
metrics, the distribution metrics and the histogram over `BINS`, and
assemble the `Clustering` model.  `none` models a raised exception /
pydantic `ValidationError` anywhere along the way. -/
def clustering_health (rows : List EncodedRow) : Option ClusteringReport :=
  let nullCount := rows.countP (fun r => (denullRow r).isNone)
  let boxes := remove_nulls rows
  let counts := overlapCounts boxes
  let countsQ := counts.map (fun c => (c : ℚ))
  let om := compute_overlap_metrics counts
  let dm := compute_distribution_metrics countsQ
  match compute_histogram_metrics countsQ BINS, dm.min, dm.q05, dm.q25, dm.q50,
      dm.q75, dm.q95, dm.max, dm.mean with
  | some h, some mn, some q05, some q25, some q50, some q75, some q95, some mx, some me =>
      some ⟨om.1, om.2, nullCount, dm.count, mn, q05, q25, q50, q75, q95, mx, me, dm.stdSq, h⟩
  | _, _, _, _, _, _, _, _, _ => none

/-- A commit record of `dt.history()` as `extract_operation_params`
consumes it: an operation name and the `operationParameters` map.
Parameter values are modelled already JSON-decoded (the raw parameter
strings occurring in a Delta log are non-empty, hence truthy in Python). -/
structure Commit where
  operation : String
  operationParameters : List (String × List String)
  deriving DecidableEq, Repr

/-- `commit.get("operationParameters", {}).get(param_key)`. -/
def lookupParam (c : Commit) (key : String) : Option (List String) :=
  (c.operationParameters.find? (fun p => p.1 == key)).map (fun p => p.2)

/-- Model of `extract_operation_params(history, param_key)` from
`delta_inspect/util/history.py`: walk the commits in the given order
(`dt.history()` yields the most recent commit first); at the *first* commit
whose operation is `OPTIMIZE` or `CREATE TABLE` the loop returns — the
parsed parameter when the commit carries it, and Python `None` otherwise
(the bare `return` in the `else` branch).  `None` is also the result when
no commit matches at all. -/
def extract_operation_params : List Commit → String → Option (List String)
  | [], _ => none
  | c :: rest, key =>
      if c.operation = "OPTIMIZE" ∨ c.operation = "CREATE TABLE" then
        lookupParam c key
      else
        extract_operation_params rest key

/-- Modelled from the spec (§4.3 step 5, claim C7): search most recent to
oldest, match the first commit whose operation is a table-creation or
optimize event *and* that carries the relevant parameter; absence yields an
empty list, never an error. -/
def spec_resolve_lineage (history : List Commit) (key : String) : List String :=
  match history.find? (fun c =>
      (c.operation == "OPTIMIZE" || c.operation == "CREATE TABLE") &&
      (lookupParam c key).isSome) with
  | some c => (lookupParam c key).getD []
  | none => []

/-- Pydantic validation of the `clustering_columns: list[str]` /
`zorder_columns: list[str]` fields of `Clustering` as `clustering_health`
uses them: the extracted value is always passed explicitly, so the
`default_factory=list` never applies, and a Python `None` argument is
rejected (`Input should be a valid list`). -/
def validateColumns : Option (List String) → Except String (List String)
  | some l => Except.ok l
  | none => Except.error "Input should be a valid list"

/-- A text value, modelled as its character sequence; the order is the
lexicographic order polars' string comparison uses. -/
abbrev Text := List Char

/-- Model of `get_dictionary_encoding(df, columns=[col_min, col_max])` for
one text column: the per-file min values and max values are pooled
(`unique` per column, concatenated, `unique` again — deduplication, order
immaterial because of the sort), sorted ascending, and `with_row_index`
assigns each distinct value its position as rank.  The resulting dictionary
is returned as the sorted key list; the rank of a key is its index. -/
def get_dictionary_encoding (mins maxs : List Text) : List Text :=
  ((mins ++ maxs).dedup).insertionSort (· ≤ ·)

/-- The rank `with_row_index` pairs with a dictionary key: the position of
its first occurrence in the sorted key list. -/
def dictRank (d : List Text) (v : Text) : ℕ :=
  d.findIdx (fun x => decide (x = v))

/-- Model of `apply_numerical_encoding` on one file's `(min, max)` pair of
a text column: `replace_strict(old=key, new=value)` maps both bounds
through the dictionary. -/
def encodeStringRange (d : List Text) (p : Text × Text) : ℚ × ℚ :=
  ((dictRank d p.1 : ℚ), (dictRank d p.2 : ℚ))

/-! ## Helper lemmas -/

lemma countP_or_disjoint {α : Type} (p q : α → Bool) (l : List α)
    (h : ∀ a ∈ l, ¬(p a = true ∧ q a = true)) :
    l.countP (fun a => p a || q a) = l.countP p + l.countP q := by
  induction l with
  | nil => simp
  | cons a t ih =>
      have ht : ∀ b ∈ t, ¬(p b = true ∧ q b = true) :=
        fun b hb => h b (List.mem_cons_of_mem a hb)
      have hrec := ih ht
      cases hp : p a with
      | false =>
          cases hq : q a with
          | false => simp [List.countP_cons, hp, hq, hrec]
          | true =>
              simp [List.countP_cons, hp, hq, hrec]
              omega
      | true =>
          cases hq : q a with
          | false =>
              simp [List.countP_cons, hp, hq, hrec]
              omega
          | true => exact absurd ⟨hp, hq⟩ (h a (List.mem_cons_self a t))

lemma countP_mono_eq {α : Type} {p q : α → Bool} {l : List α}
    (h : ∀ a ∈ l, p a = q a) : l.countP p = l.countP q :=
  List.countP_congr (fun a ha => by rw [h a ha])

lemma foldl_max_spec (t : List ℚ) (a : ℚ) :
    t.foldl max a ∈ a :: t ∧ a ≤ t.foldl max a ∧ ∀ w ∈ t, w ≤ t.foldl max a := by
  induction t generalizing a with
  | nil => simp
  | cons b t ih =>
      obtain ⟨hmem, hle, hall⟩ := ih (max a b)
      have hfold : (b :: t).foldl max a = t.foldl max (max a b) := rfl
      refine ⟨?_, ?_, ?_⟩
      · rw [hfold]
        rcases List.mem_cons.mp hmem with hm | hm
        · rcases max_choice a b with hc | hc
          · exact List.mem_cons.mpr (Or.inl (hm.trans hc))
          · exact List.mem_cons.mpr (Or.inr (List.mem_cons.mpr (Or.inl (hm.trans hc))))
        · exact List.mem_cons.mpr (Or.inr (List.mem_cons.mpr (Or.inr hm)))
      · rw [hfold]
        exact le_trans (le_max_left a b) hle
      · intro w hw
        rw [hfold]
        rcases List.mem_cons.mp hw with hw | hw
        · rw [hw]
          exact le_trans (le_max_right a b) hle
        · exact hall w hw

lemma seriesMax_spec {values : List ℚ} (h : values ≠ []) :
    ∃ m, seriesMax values = some m ∧ m ∈ values ∧ ∀ v ∈ values, v ≤ m := by
  cases values with
  | nil => exact absurd rfl h
  | cons v vs =>
      obtain ⟨hmem, hle, hall⟩ := foldl_max_spec vs v
      refine ⟨vs.foldl max v, rfl, hmem, ?_⟩
      intro w hw
      rcases List.mem_cons.mp hw with hw | hw
      · exact hw ▸ hle
      · exact hall w hw

lemma interval_split {lo hi L v : ℚ} (h1 : lo ≤ hi) (h2 : hi ≤ L) :
    (lo < v ∧ v ≤ L) ↔ ((lo < v ∧ v ≤ hi) ∨ (hi < v ∧ v ≤ L)) := by
  constructor
  · rintro ⟨h3, h4⟩
    by_cases h5 : v ≤ hi
    · exact Or.inl ⟨h3, h5⟩
    · exact Or.inr ⟨not_le.mp h5, h4⟩
  · rintro (⟨h3, h4⟩ | ⟨h3, h4⟩)
    · exact ⟨h3, le_trans h4 h2⟩
    · exact ⟨lt_of_le_of_lt h1 h3, h4⟩

lemma chain_le_getLastD {l : List ℚ} {a : ℚ}
    (h : List.Chain' (· < ·) (a :: l)) : a ≤ l.getLastD a := by
  induction l generalizing a with
  | nil => simp
  | cons b t ih =>
      have h1 : a < b := (List.chain'_cons.mp h).1
      have h2 := ih (List.chain'_cons.mp h).2
      rw [List.getLastD_cons]
      exact le_trans (le_of_lt h1) h2

lemma histCountsAux_eq_map (values : List ℚ) (lo : ℚ) (rest : List ℚ) :
    histCountsAux values lo rest =
      ((lo :: rest).zip rest).map
        (fun p => values.countP (fun v => decide (p.1 < v ∧ v ≤ p.2))) := by
  induction rest generalizing lo with
  | nil => rfl
  | cons hi t ih => simp [histCountsAux, ih hi]

lemma histCountsAux_sum (values : List ℚ) (lo : ℚ) (rest : List ℚ)
    (h : List.Chain' (· < ·) (lo :: rest)) :
    (histCountsAux values lo rest).sum =
      values.countP (fun v => decide (lo < v ∧ v ≤ rest.getLastD lo)) := by
  induction rest generalizing lo with
  | nil =>
      simp only [histCountsAux, List.sum_nil, List.getLastD_nil]
      symm
      rw [List.countP_eq_zero]
      intro v _
      simp only [decide_eq_true_eq, not_and, not_le]
      exact fun h1 => h1
  | cons hi t ih =>
      have h1 : lo < hi := (List.chain'_cons.mp h).1
      have h2 : List.Chain' (· < ·) (hi :: t) := (List.chain'_cons.mp h).2
      have hrec := ih hi h2
      have hL : hi ≤ t.getLastD hi := chain_le_getLastD h2
      have hsum : (histCountsAux values lo (hi :: t)).sum
          = values.countP (fun v => decide (lo < v ∧ v ≤ hi))
            + (histCountsAux values hi t).sum := by
        simp [histCountsAux]
      have hmerge : values.countP (fun v => decide (lo < v ∧ v ≤ hi))
            + values.countP (fun v => decide (hi < v ∧ v ≤ t.getLastD hi))
          = values.countP (fun v => decide (lo < v ∧ v ≤ t.getLastD hi)) := by
        rw [← countP_or_disjoint]
        · apply countP_mono_eq
          intro v _
          rw [← Bool.decide_or]
          exact decide_eq_decide.mpr (interval_split (le_of_lt h1) hL).symm
        · intro v _
          simp only [decide_eq_true_eq]
          rintro ⟨⟨_, h4⟩, ⟨h5, _⟩⟩
          exact absurd h4 (not_le.mpr h5)
      rw [List.getLastD_cons, hsum, hrec, hmerge]

lemma countP_eq_countP_range {α : Type} (l : List α) (p : α → Bool) (d : α) :
    l.countP p = (List.range l.length).countP (fun j => p (l.getD j d)) := by
  induction l with
  | nil => simp
  | cons a t ih =>
      rw [List.length_cons, List.range_succ_eq_map, List.countP_cons, List.countP_cons,
        List.countP_map]
      have : ((fun j => p ((a :: t).getD j d)) ∘ Nat.succ) = fun j => p (t.getD j d) := rfl
      rw [this, List.getD_cons_zero, ← ih]

lemma countP_range_eq_self (i n : ℕ) (h : i < n) :
    (List.range n).countP (fun j => decide (j = i)) = 1 := by
  induction n with
  | zero => omega
  | succ n ih =>
      rw [List.range_succ, List.countP_append]
      by_cases hi : i < n
      · rw [ih hi]
        have hz : (List.countP (fun j => decide (j = i)) [n]) = 0 := by
          rw [List.countP_eq_zero]
          intro j hj
          simp only [List.mem_singleton] at hj
          subst hj
          simp only [decide_eq_true_eq]
          omega
        rw [hz]
      · have hin : i = n := by omega
        have h0 : (List.range n).countP (fun j => decide (j = i)) = 0 := by
          rw [List.countP_eq_zero]
          intro j hj
          rw [List.mem_range] at hj
          simp only [decide_eq_true_eq]
          omega
        rw [h0, hin]
        simp

lemma countP_split_at {n i : ℕ} (q : ℕ → Bool) (h : i < n) (hq : q i = true) :
    (List.range n).countP q =
      1 + (List.range n).countP (fun j => decide (j ≠ i) && q j) := by
  have hsplit : (List.range n).countP q
      = (List.range n).countP (fun j => decide (j = i) && q j)
        + (List.range n).countP (fun j => decide (j ≠ i) && q j) := by
    rw [← countP_or_disjoint]
    · apply countP_mono_eq
      intro j _
      by_cases hj : j = i <;> simp [hj]
    · intro j _
      intro hcontra
      simp only [Bool.and_eq_true, decide_eq_true_eq] at hcontra
      exact hcontra.2.1 hcontra.1.1
  have hone : (List.range n).countP (fun j => decide (j = i) && q j) = 1 := by
    rw [countP_mono_eq (q := fun j => decide (j = i))]
    · exact countP_range_eq_self i n h
    · intro j _
      by_cases hj : j = i
      · subst hj
        simp [hq]
      · simp [hj]
  rw [hsplit, hone]

lemma getD_of_lt {α : Type} (l : List α) (d : α) (i : ℕ) (h : i < l.length) :
    l.getD i d = l[i] := by
  rw [List.getD_eq_getElem?_getD, List.getElem?_eq_getElem h]
  rfl

lemma zip_self_eq_map (l : List (ℚ × ℚ)) : l.zip l = l.map (fun x => (x, x)) := by
  induction l with
  | nil => rfl
  | cons a t ih => simp [ih]

lemma boxesIntersect_self {b : Box} (h : boxWF b = true) : boxesIntersect b b = true := by
  rw [boxesIntersect, zip_self_eq_map, List.all_eq_true]
  intro p hp
  rw [List.mem_map] at hp
  obtain ⟨x, hx, hpx⟩ := hp
  rw [boxWF, List.all_eq_true] at h
  have hb := h x hx
  simp only [decide_eq_true_eq] at hb
  subst hpx
  simp only [decide_eq_true_eq]
  exact ⟨hb, hb⟩

lemma one_le_rtreeCount {boxes : List Box} {b : Box} (hb : b ∈ boxes)
    (h : boxWF b = true) : 1 ≤ rtreeCount boxes b :=
  List.countP_pos_iff.mpr ⟨b, hb, boxesIntersect_self h⟩

lemma rtreeCount_le_length (boxes : List Box) (q : Box) :
    rtreeCount boxes q ≤ boxes.length :=
  List.countP_le_length _

lemma denullRow_wf (r : EncodedRow) :
    ∀ b : Box, denullRow r = some b → rowWF r = true → boxWF b = true := by
  induction r with
  | nil =>
      intro b hb _
      simp only [denullRow, Option.some_inj] at hb
      subst hb
      rfl
  | cons p t ih =>
      intro b hb hwf
      obtain ⟨p1, p2⟩ := p
      cases p1 with
      | none => exact absurd hb (by simp [denullRow])
      | some lo =>
          cases p2 with
          | none => exact absurd hb (by simp [denullRow])
          | some hi =>
              simp only [denullRow, Option.map_eq_some'] at hb
              obtain ⟨bs, hbs, hcons⟩ := hb
              simp only [rowWF, List.all_cons, Bool.and_eq_true, decide_eq_true_eq] at hwf
              have hbox := ih bs hbs (by
                rw [rowWF, List.all_eq_true]
                intro q hq
                rw [rowWF, List.all_eq_true] at *
                exact hwf.2 q hq)
              subst hcons
              rw [boxWF, List.all_cons, Bool.and_eq_true]
              exact ⟨by simpa using hwf.1, hbox⟩

lemma remove_nulls_wf {rows : List EncodedRow} (hwf : ∀ r ∈ rows, rowWF r = true) :
    ∀ b ∈ remove_nulls rows, boxWF b = true := by
  intro b hb
  rw [remove_nulls, List.mem_filterMap] at hb
  obtain ⟨r, hr, hrb⟩ := hb
  exact denullRow_wf r b hrb (hwf r hr)

lemma null_count_add_length (rows : List EncodedRow) :
    rows.countP (fun r => (denullRow r).isNone) + (remove_nulls rows).length
      = rows.length := by
  rw [remove_nulls, List.length_filterMap_eq_countP]
  have hswap : rows.countP (fun r => (denullRow r).isNone)
      = rows.countP (fun a => decide ¬((denullRow a).isSome = true)) := by
    apply countP_mono_eq
    intro r _
    cases denullRow r <;> simp
  rw [hswap, Nat.add_comm]
  exact (List.length_eq_countP_add_countP (p := fun r => (denullRow r).isSome) rows).symm

lemma counts_partition (counts : List ℤ) (h : ∀ c ∈ counts, 0 ≤ c) :
    counts.countP (fun c => decide (c = 0)) + counts.countP (fun c => decide (0 < c))
      = counts.length := by
  have hlen := List.length_eq_countP_add_countP (p := fun c => decide (c = 0)) counts
  have hconv : counts.countP (fun c => !(decide (c = 0)))
      = counts.countP (fun c => decide (0 < c)) := by
    apply countP_mono_eq
    intro c hc
    have hge := h c hc
    by_cases hz : c = 0
    · simp [hz]
    · have hpos : 0 < c := lt_of_le_of_ne hge (Ne.symm hz)
      simp [hz, hpos]
  rw [← hconv]
  rw [hlen]
  have hnot : counts.countP (fun c => decide ¬(decide (c = 0) = true))
      = counts.countP (fun c => !(decide (c = 0))) := by
    apply countP_mono_eq
    intro c _
    by_cases hz : c = 0 <;> simp [hz]
  rw [← hnot]

lemma overlapCounts_nonneg {rows : List EncodedRow}
    (hwf : ∀ r ∈ rows, rowWF r = true) :
    ∀ c ∈ overlapCounts (remove_nulls rows), 0 ≤ c := by
  intro c hc
  rw [overlapCounts, List.mem_map] at hc
  obtain ⟨b, hb, hbc⟩ := hc
  have h1 : 1 ≤ rtreeCount (remove_nulls rows) b :=
    one_le_rtreeCount hb (remove_nulls_wf hwf b hb)
  subst hbc
  omega

lemma dictRank_lt_length {l : List Text} {v : Text} (hv : v ∈ l) :
    dictRank l v < l.length :=
  List.findIdx_lt_length_of_exists ⟨v, hv, by simp⟩

lemma getElem_dictRank {l : List Text} {v : Text} (h : dictRank l v < l.length) :
    l[dictRank l v] = v := by
  have hp := List.findIdx_getElem (p := fun x => decide (x = v)) (w := h)
  simpa using hp

lemma sorted_nodup_dictRank_lt_iff {l : List Text} (hp : List.Pairwise (· < ·) l)
    {v w : Text} (hv : v ∈ l) (hw : w ∈ l) :
    dictRank l v < dictRank l w ↔ v < w := by
  have hv2 : dictRank l v < l.length := dictRank_lt_length hv
  have hw2 : dictRank l w < l.length := dictRank_lt_length hw
  have hev : l[dictRank l v] = v := getElem_dictRank hv2
  have hew : l[dictRank l w] = w := getElem_dictRank hw2
  have hget := List.pairwise_iff_get.mp hp
  constructor
  · intro hlt
    have hr := hget ⟨dictRank l v, hv2⟩ ⟨dictRank l w, hw2⟩ (Fin.mk_lt_mk.mpr hlt)
    simp only [List.get_eq_getElem] at hr
    rw [hev, hew] at hr
    exact hr
  · intro hvw
    rcases lt_trichotomy (dictRank l v) (dictRank l w) with hc | hc | hc
    · exact hc
    · exfalso
      have hvweq : v = w := by
        rw [← hev, ← hew]
        simp only [hc]
      exact absurd (hvweq ▸ hvw) (lt_irrefl w)
    · exfalso
      have hr := hget ⟨dictRank l w, hw2⟩ ⟨dictRank l v, hv2⟩ (Fin.mk_lt_mk.mpr hc)
      simp only [List.get_eq_getElem] at hr
      rw [hev, hew] at hr
      exact absurd (lt_trans hvw hr) (lt_irrefl v)

lemma nodup_map_dictRank {l : List Text} (h : l.Nodup) :
    l.map (fun x => dictRank l x) = List.range l.length := by
  apply List.ext_getElem
  · simp
  · intro i h1 h2
    simp only [List.getElem_map, List.getElem_range]
    have hi : i < l.length := by simpa using h1
    have hmem : l[i] ∈ l := List.getElem_mem hi
    have hlt : dictRank l l[i] < l.length := dictRank_lt_length hmem
    have heq : l[dictRank l l[i]] = l[i] := getElem_dictRank hlt
    exact (List.Nodup.getElem_inj_iff h).mp heq

lemma dict_pairwise_lt (mins maxs : List Text) :
    List.Pairwise (· < ·) (get_dictionary_encoding mins maxs) := by
  have hsorted : List.Sorted (· ≤ ·) (get_dictionary_encoding mins maxs) :=
    List.sorted_insertionSort (· ≤ ·) ((mins ++ maxs).dedup)
  have hnodup : (get_dictionary_encoding mins maxs).Nodup :=
    (List.perm_insertionSort (· ≤ ·) ((mins ++ maxs).dedup)).nodup_iff.mpr
      (List.nodup_dedup (mins ++ maxs))
  exact List.Pairwise.imp₂ (fun a b hle hne => lt_of_le_of_ne hle hne) hsorted hnodup

lemma dict_mem_iff (mins maxs : List Text) (x : Text) :
    x ∈ get_dictionary_encoding mins maxs ↔ x ∈ mins ++ maxs := by
  rw [get_dictionary_encoding]
  rw [(List.perm_insertionSort (· ≤ ·) ((mins ++ maxs).dedup)).mem_iff]
  exact List.mem_dedup

lemma first_bucket_merge (values : List ℚ) {e0 e1 : ℚ} (h : e0 ≤ e1) :
    values.countP (fun v => decide (e0 ≤ v ∧ v ≤ e1))
      + values.countP (fun v => decide (v < e0))
    = values.countP (fun v => decide (v ≤ e1)) := by
  rw [← countP_or_disjoint]
  · apply countP_mono_eq
    intro v _
    rw [← Bool.decide_or]
    apply decide_eq_decide.mpr
    constructor
    · rintro (⟨_, h2⟩ | h2)
      · exact h2
      · exact le_trans (le_of_lt h2) h
    · intro h2
      by_cases h3 : e0 ≤ v
      · exact Or.inl ⟨h3, h2⟩
      · exact Or.inr (not_le.mp h3)
  · intro v _
    simp only [decide_eq_true_eq]
    rintro ⟨⟨h2, _⟩, h3⟩
    exact absurd h3 (not_lt.mpr h2)

lemma countP_le_add_between (values : List ℚ) {e1 L : ℚ} (h : e1 ≤ L) :
    values.countP (fun v => decide (v ≤ e1))
      + values.countP (fun v => decide (e1 < v ∧ v ≤ L))
    = values.countP (fun v => decide (v ≤ L)) := by
  rw [← countP_or_disjoint]
  · apply countP_mono_eq
    intro v _
    rw [← Bool.decide_or]
    apply decide_eq_decide.mpr
    constructor
    · rintro (h2 | ⟨_, h3⟩)
      · exact le_trans h2 h
      · exact h3
    · intro h2
      by_cases h3 : v ≤ e1
      · exact Or.inl h3
      · exact Or.inr ⟨not_le.mp h3, h2⟩
  · intro v _
    simp only [decide_eq_true_eq]
    rintro ⟨h2, ⟨h3, _⟩⟩
    exact absurd h3 (not_lt.mpr h2)

lemma countP_le_add_ge (values : List ℚ) (L : ℚ) :
    values.countP (fun v => decide (v ≤ L)) + values.countP (fun v => decide (L ≤ v))
      = values.length + values.countP (fun v => decide (v = L)) := by
  have hsplit : values.countP (fun v => decide (L ≤ v))
      = values.countP (fun v => decide (v = L))
        + values.countP (fun v => decide (L < v)) := by
    rw [← countP_or_disjoint]
    · apply countP_mono_eq
      intro v _
      rw [← Bool.decide_or]
      apply decide_eq_decide.mpr
      constructor
      · intro h2
        rcases eq_or_lt_of_le h2 with h3 | h3
        · exact Or.inl h3.symm
        · exact Or.inr h3
      · rintro (h2 | h2)
        · exact le_of_eq h2.symm
        · exact le_of_lt h2
    · intro v _
      simp only [decide_eq_true_eq]
      rintro ⟨h2, h3⟩
      rw [h2] at h3
      exact absurd h3 (lt_irrefl L)
  have hlen := List.length_eq_countP_add_countP (p := fun v => decide (v ≤ L)) values
  have hc : values.countP (fun a => decide ¬(decide (a ≤ L) = true))
      = values.countP (fun v => decide (L < v)) := by
    apply countP_mono_eq
    intro v _
    by_cases h2 : v ≤ L
    · simp [h2, not_lt.mpr h2]
    · simp [h2, not_le.mp h2]
  rw [hc] at hlen
  omega

/-- Characterisation of `compute_histogram_metrics` for a non-empty value
sequence and at least two strictly ascending edges: the bin edges are
`e1, …, e(n-1)` followed by the observed maximum, the first count is
`#{v ≤ e1}` (the values below `e0` folded in, `e0` and `e1` included), the
middle counts are the right-closed buckets `#{eᵢ < v ≤ eᵢ₊₁}`, and the
appended count is `#{v ≥ e(n-1)}`. -/
lemma compute_histogram_metrics_eq (values : List ℚ) (e0 e1 : ℚ) (rest : List ℚ)
    (hv : values ≠ []) (hchain : List.Chain' (· < ·) (e0 :: e1 :: rest)) :
    ∃ m, seriesMax values = some m ∧ m ∈ values ∧ (∀ v ∈ values, v ≤ m)
      ∧ compute_histogram_metrics values (e0 :: e1 :: rest)
        = some ⟨(e1 :: rest) ++ [m],
            values.countP (fun v => decide (v ≤ e1))
              :: ((((e1 :: rest).zip rest).map
                    (fun p => values.countP (fun v => decide (p.1 < v ∧ v ≤ p.2))))
                  ++ [values.countP (fun v => decide (rest.getLastD e1 ≤ v))])⟩ := by
  obtain ⟨m, hm, hmem, hall⟩ := seriesMax_spec hv
  refine ⟨m, hm, hmem, hall, ?_⟩
  have h01 : e0 < e1 := (List.chain'_cons.mp hchain).1
  simp only [compute_histogram_metrics, hm, polarsHistCounts, List.cons_append,
    List.getLastD_cons, Option.some_inj, Histogram.mk.injEq]
  constructor
  · trivial
  · simp only [List.cons.injEq]
    constructor
    · exact first_bucket_merge values (le_of_lt h01)
    · rw [histCountsAux_eq_map]

/-! ## The claims -/

/-- Claim C3: for every table (one encoded row per active file) whose
materialised boxes satisfy the bounding-box invariant, the no-overlap file
count plus the with-overlap file count plus the excluded (missing min/max)
file count equals the total number of active files — both for the raw
metrics `clustering_health` computes and for any report it returns. -/
theorem claim_C3 (rows : List EncodedRow)
    (hwf : ∀ r ∈ rows, rowWF r = true) :
    ((compute_overlap_metrics (overlapCounts (remove_nulls rows))).1
        + (compute_overlap_metrics (overlapCounts (remove_nulls rows))).2
        + rows.countP (fun r => (denullRow r).isNone) = rows.length)
    ∧ ∀ c : ClusteringReport, clustering_health rows = some c →
        c.count_no_overlap + c.count_with_overlap + c.count_without_min_max
          = rows.length := by
  have hpart : (compute_overlap_metrics (overlapCounts (remove_nulls rows))).1
      + (compute_overlap_metrics (overlapCounts (remove_nulls rows))).2
      + rows.countP (fun r => (denullRow r).isNone) = rows.length := by
    have h1 := counts_partition (overlapCounts (remove_nulls rows))
      (overlapCounts_nonneg hwf)
    have h2 : (overlapCounts (remove_nulls rows)).length = (remove_nulls rows).length := by
      rw [overlapCounts, List.length_map]
    have h3 := null_count_add_length rows
    rw [compute_overlap_metrics]
    omega
  refine ⟨hpart, ?_⟩
  intro c hc
  rw [clustering_health] at hc
  split at hc
  · injection hc with hc
    subst hc
    exact hpart
  · exact absurd hc (by simp)

/-- Claim C4: with the R-tree built over the indexed boxes, each file's
reported overlap count (`rindex.count` of its own box, minus one) equals the
number of *other* index entries whose boxes intersect its box in every
analyzed dimension with inclusive bounds — the file itself is excluded even
though it intersects itself. -/
theorem claim_C4 (boxes : List Box) (i : ℕ) (hi : i < boxes.length)
    (hwf : boxWF (boxes.getD i []) = true) :
    (overlapCounts boxes).getD i 0
      = ((List.range boxes.length).countP
          (fun j => decide (j ≠ i)
            && boxesIntersect (boxes.getD j []) (boxes.getD i [])) : ℤ) := by
  have hlen : i < (overlapCounts boxes).length := by
    rw [overlapCounts, List.length_map]
    exact hi
  rw [getD_of_lt _ _ _ hlen]
  simp only [overlapCounts, List.getElem_map]
  have hq : boxes.getD i [] = boxes[i] := getD_of_lt _ _ _ hi
  have h1 : rtreeCount boxes (boxes.getD i []) =
      (List.range boxes.length).countP
        (fun j => boxesIntersect (boxes.getD j []) (boxes.getD i [])) :=
    countP_eq_countP_range boxes _ []
  have hself : boxesIntersect (boxes.getD i []) (boxes.getD i []) = true :=
    boxesIntersect_self hwf
  rw [← hq, h1, countP_split_at _ hi hself]
  push_cast
  ring

/-- Claim C10: whenever files are indexed, querying the index with a member
box returns between 1 (the box itself) and n hits, and the analyzer
subtracts exactly one, so every reported per-file overlap count lies
between 0 and n - 1 inclusive. -/
theorem claim_C10 (rows : List EncodedRow) (hwf : ∀ r ∈ rows, rowWF r = true) :
    (∀ b ∈ remove_nulls rows,
        1 ≤ rtreeCount (remove_nulls rows) b
          ∧ rtreeCount (remove_nulls rows) b ≤ (remove_nulls rows).length)
    ∧ ∀ c ∈ overlapCounts (remove_nulls rows),
        0 ≤ c ∧ c ≤ ((remove_nulls rows).length : ℤ) - 1 := by
  constructor
  · intro b hb
    exact ⟨one_le_rtreeCount hb (remove_nulls_wf hwf b hb), rtreeCount_le_length _ _⟩
  · intro c hc
    refine ⟨overlapCounts_nonneg hwf c hc, ?_⟩
    rw [overlapCounts, List.mem_map] at hc
    obtain ⟨b, hb, hbc⟩ := hc
    have h2 := rtreeCount_le_length (remove_nulls rows) b
    rw [← hbc]
    omega

/-- A concrete three-file table used by witnesses: two indexable files and
one file with a missing minimum. -/
def sampleRows : List EncodedRow :=
  [[(some 0, some 1)], [(some 5, some 6)], [(none, some 2)]]

/-- Concrete boxes used by witnesses: the first two overlap, the third is
disjoint from both. -/
def sampleBoxes : List Box :=
  [[(0, 1)], [(0, 2)], [(5, 6)]]

/-- Claim C3 witness: `claim_C3` applied to `sampleRows`, with its
hypothesis discharged by evaluation. -/
theorem claim_C3_witness :
    (∀ r ∈ sampleRows, rowWF r = true)
    ∧ (((compute_overlap_metrics (overlapCounts (remove_nulls sampleRows))).1
          + (compute_overlap_metrics (overlapCounts (remove_nulls sampleRows))).2
          + sampleRows.countP (fun r => (denullRow r).isNone) = sampleRows.length)
        ∧ ∀ c : ClusteringReport, clustering_health sampleRows = some c →
            c.count_no_overlap + c.count_with_overlap + c.count_without_min_max
              = sampleRows.length) :=
  ⟨by decide, claim_C3 sampleRows (by decide)⟩

/-- Claim C4 witness: `claim_C4` applied to `sampleBoxes` at index 0, with
the hypotheses discharged by evaluation. -/
theorem claim_C4_witness :
    (0 < sampleBoxes.length ∧ boxWF (sampleBoxes.getD 0 []) = true)
    ∧ (overlapCounts sampleBoxes).getD 0 0
        = ((List.range sampleBoxes.length).countP
            (fun j => decide (j ≠ 0)
              && boxesIntersect (sampleBoxes.getD j []) (sampleBoxes.getD 0 [])) : ℤ) :=
  ⟨⟨by decide, by decide⟩, claim_C4 sampleBoxes 0 (by decide) (by decide)⟩

/-- Claim C10 witness: `claim_C10` applied to `sampleRows`, with its
hypothesis discharged by evaluation. -/
theorem claim_C10_witness :
    (∀ r ∈ sampleRows, rowWF r = true)
    ∧ ((∀ b ∈ remove_nulls sampleRows,
          1 ≤ rtreeCount (remove_nulls sampleRows) b
            ∧ rtreeCount (remove_nulls sampleRows) b ≤ (remove_nulls sampleRows).length)
        ∧ ∀ c ∈ overlapCounts (remove_nulls sampleRows),
            0 ≤ c ∧ c ≤ ((remove_nulls sampleRows).length : ℤ) - 1) :=
  ⟨by decide, claim_C10 sampleRows (by decide)⟩

/-- Claim C5: the dictionary built for a text column over the union of all
files' min and max values maps each distinct value to a dense integer rank
starting at 0 (the ranks of the dictionary's keys are exactly
`0, 1, …, k-1`), and rank order matches lexicographic value order; in the
two-file scenario with min/max `"a","m"` and `"n","z"` the ranks are
`a=0, m=1, n=2, z=3` and the encoded ranges `[0,1]` and `[2,3]` do not
overlap. -/
theorem claim_C5 (mins maxs : List Text) (v w : Text)
    (hv : v ∈ mins ++ maxs) (hw : w ∈ mins ++ maxs) :
    (dictRank (get_dictionary_encoding mins maxs) v
        < dictRank (get_dictionary_encoding mins maxs) w ↔ v < w)
    ∧ ((get_dictionary_encoding mins maxs).map
          (fun x => dictRank (get_dictionary_encoding mins maxs) x)
        = List.range (get_dictionary_encoding mins maxs).length)
    ∧ get_dictionary_encoding [['a'], ['n']] [['m'], ['z']] = [['a'], ['m'], ['n'], ['z']]
    ∧ encodeStringRange (get_dictionary_encoding [['a'], ['n']] [['m'], ['z']]) (['a'], ['m']) = (0, 1)
    ∧ encodeStringRange (get_dictionary_encoding [['a'], ['n']] [['m'], ['z']]) (['n'], ['z']) = (2, 3)
    ∧ boxesIntersect [(0, 1)] [(2, 3)] = false := by
  have hpair := dict_pairwise_lt mins maxs
  have hnodup : (get_dictionary_encoding mins maxs).Nodup := hpair.imp ne_of_lt
  refine ⟨?_, ?_, by decide, by decide, by decide, by decide⟩
  · exact sorted_nodup_dictRank_lt_iff hpair
      ((dict_mem_iff mins maxs v).mpr hv) ((dict_mem_iff mins maxs w).mpr hw)
  · exact nodup_map_dictRank hnodup

/-- Claim C5 witness: `claim_C5` applied to the scenario input, with the
membership hypotheses discharged by evaluation. -/
theorem claim_C5_witness :
    ((['a'] : Text) ∈ [['a'], ['n']] ++ [['m'], ['z']]
      ∧ (['z'] : Text) ∈ [['a'], ['n']] ++ [['m'], ['z']])
    ∧ ((dictRank (get_dictionary_encoding [['a'], ['n']] [['m'], ['z']]) ['a']
          < dictRank (get_dictionary_encoding [['a'], ['n']] [['m'], ['z']]) ['z']
          ↔ (['a'] : Text) < ['z'])
        ∧ ((get_dictionary_encoding [['a'], ['n']] [['m'], ['z']]).map
              (fun x => dictRank (get_dictionary_encoding [['a'], ['n']] [['m'], ['z']]) x)
            = List.range (get_dictionary_encoding [['a'], ['n']] [['m'], ['z']]).length)
        ∧ get_dictionary_encoding [['a'], ['n']] [['m'], ['z']] = [['a'], ['m'], ['n'], ['z']]
        ∧ encodeStringRange (get_dictionary_encoding [['a'], ['n']] [['m'], ['z']]) (['a'], ['m']) = (0, 1)
        ∧ encodeStringRange (get_dictionary_encoding [['a'], ['n']] [['m'], ['z']]) (['n'], ['z']) = (2, 3)
        ∧ boxesIntersect [(0, 1)] [(2, 3)] = false) :=
  ⟨⟨by decide, by decide⟩,
    claim_C5 [['a'], ['n']] [['m'], ['z']] ['a'] ['z'] (by decide) (by decide)⟩

/-- Claim C6 (code bug): with zero indexable files the analysis *fails*
instead of producing an all-zero report.  `clustering_health` on an empty
file list — or on files that are all excluded for missing statistics —
yields `none` (the raised `ValidationError`), because the overlap-count
series is empty, its polars `max()` is Python `None`, and the `Histogram`
and `Clustering` pydantic models reject the resulting nulls; meanwhile the
overlap metrics alone would have been `(0, 0)` as the spec asks. -/
theorem claim_C6 :
    clustering_health [] = none
    ∧ clustering_health [[(none, some 2)]] = none
    ∧ compute_histogram_metrics [] BINS = none
    ∧ compute_overlap_metrics (overlapCounts (remove_nulls ([] : List EncodedRow)))
        = (0, 0) := by
  refine ⟨by decide, by decide, by decide, by decide⟩

/-- Claim C7 (code bug): lineage resolution stops at the *first*
`OPTIMIZE` / `CREATE TABLE` commit even when that commit does not carry the
parameter, returning Python `None` rather than searching older commits or
yielding an empty list; the `None` then fails pydantic validation of the
report's `list[str]` fields, so absence of the parameter raises instead of
producing `[]`.  The spec-modelled resolver shows what the claim expected
on the same histories. -/
theorem claim_C7 :
    extract_operation_params [⟨"CREATE TABLE", []⟩] "clusterBy" = none
    ∧ validateColumns (extract_operation_params [⟨"CREATE TABLE", []⟩] "clusterBy")
        = Except.error "Input should be a valid list"
    ∧ spec_resolve_lineage [⟨"CREATE TABLE", []⟩] "clusterBy" = []
    ∧ extract_operation_params
        [⟨"OPTIMIZE", []⟩, ⟨"OPTIMIZE", [("zOrderBy", ["a"])]⟩] "zOrderBy" = none
    ∧ spec_resolve_lineage
        [⟨"OPTIMIZE", []⟩, ⟨"OPTIMIZE", [("zOrderBy", ["a"])]⟩] "zOrderBy" = ["a"] := by
  refine ⟨by decide, rfl, by decide, by decide, by decide⟩

/-- Claim C1 counterexample: on `histogram([10], edges=[0,10,20])` the code
counts the value 10 in the *first* bucket (polars' buckets are right-closed,
`[0,10]` then `(10,20]`), while the claim's left-closed `[0,10), [10,20)`
buckets put it in the second: the two histograms differ at this input. -/
theorem claim_C1_counterexample :
    compute_histogram_metrics [10] [0, 10, 20] = some ⟨[10, 20, 10], [1, 0, 0]⟩
    ∧ spec_histogram [10] [0, 10, 20] = some ⟨[10, 20, 10], [0, 1, 0]⟩
    ∧ compute_histogram_metrics [10] [0, 10, 20] ≠ spec_histogram [10] [0, 10, 20] :=
  ⟨by decide, by decide, by decide⟩

/-- Claim C1 amended: for every non-empty sequence and ascending edges
`e0 < e1 < … < e(n-1)` (n ≥ 2) the histogram consists of the base buckets
`[e0, e1], (e1, e2], …, (e(n-2), e(n-1)]` — right-closed, with the first
bucket also containing `e0` and absorbing every value strictly below `e0` —
plus exactly one appended bucket whose count is the number of values
`≥ e(n-1)` and whose edge is the maximum observed value (a value equal to
`e(n-1)` is thus counted both in the last base bucket and in the appended
bucket; on an empty sequence the code raises instead of producing a
histogram). -/
theorem claim_C1_amended (values : List ℚ) (e0 e1 : ℚ) (rest : List ℚ)
    (hv : values ≠ []) (hchain : List.Chain' (· < ·) (e0 :: e1 :: rest)) :
    ∃ m, seriesMax values = some m ∧ m ∈ values ∧ (∀ v ∈ values, v ≤ m)
      ∧ compute_histogram_metrics values (e0 :: e1 :: rest)
        = some ⟨(e1 :: rest) ++ [m],
            values.countP (fun v => decide (v ≤ e1))
              :: ((((e1 :: rest).zip rest).map
                    (fun p => values.countP (fun v => decide (p.1 < v ∧ v ≤ p.2))))
                  ++ [values.countP (fun v => decide (rest.getLastD e1 ≤ v))])⟩ :=
  compute_histogram_metrics_eq values e0 e1 rest hv hchain

/-- Claim C1 witness: `claim_C1_amended` applied to the spec's scenario
`histogram([1,2,30], edges=[0,10,20])`, hypotheses discharged by
evaluation. -/
theorem claim_C1_witness :
    (([1, 2, 30] : List ℚ) ≠ [] ∧ List.Chain' (· < ·) ([0, 10, 20] : List ℚ))
    ∧ ∃ m, seriesMax [1, 2, 30] = some m ∧ m ∈ ([1, 2, 30] : List ℚ)
        ∧ (∀ v ∈ ([1, 2, 30] : List ℚ), v ≤ m)
        ∧ compute_histogram_metrics [1, 2, 30] ((0 : ℚ) :: (10 : ℚ) :: [20])
          = some ⟨((10 : ℚ) :: [20]) ++ [m],
              ([1, 2, 30] : List ℚ).countP (fun v => decide (v ≤ 10))
                :: (((((10 : ℚ) :: [20]).zip [20]).map
                      (fun p => ([1, 2, 30] : List ℚ).countP
                        (fun v => decide (p.1 < v ∧ v ≤ p.2))))
                    ++ [([1, 2, 30] : List ℚ).countP
                        (fun v => decide (([20] : List ℚ).getLastD 10 ≤ v))])⟩ :=
  ⟨⟨by decide, by norm_num [List.chain'_cons, List.chain'_singleton]⟩,
    claim_C1_amended [1, 2, 30] 0 10 [20] (by decide)
      (by norm_num [List.chain'_cons, List.chain'_singleton])⟩

/-- Claim C2 counterexample: `histogram([20], edges=[0,10,20])` returns
counts `[0, 1, 1]` — the value 20 lands both in the last base bucket
`(10, 20]` and in the appended `>= 20` bucket — so `sum(counts) = 2` while
`len(values) = 1`. -/
theorem claim_C2_counterexample :
    compute_histogram_metrics [20] [0, 10, 20] = some ⟨[10, 20, 20], [0, 1, 1]⟩
    ∧ ([0, 1, 1] : List ℕ).sum = 2
    ∧ ([20] : List ℚ).length = 1
    ∧ (2 : ℕ) ≠ 1 :=
  ⟨by decide, by decide, by decide, by decide⟩

/-- Claim C2 amended: for every non-empty sequence and ascending edges
(n ≥ 2) the histogram satisfies `len(bins) = len(counts)`, and
`sum(counts) = len(values) + #{v = e(n-1)}` — every value is counted at
least once (none dropped), but a value equal to the last configured edge is
counted twice, so `sum(counts) = len(values)` holds exactly when no value
equals `e(n-1)`. -/
theorem claim_C2_amended (values : List ℚ) (e0 e1 : ℚ) (rest : List ℚ)
    (hv : values ≠ []) (hchain : List.Chain' (· < ·) (e0 :: e1 :: rest)) :
    ∃ h : Histogram, compute_histogram_metrics values (e0 :: e1 :: rest) = some h
      ∧ h.bins.length = h.cnts.length
      ∧ h.cnts.sum
          = values.length + values.countP (fun v => decide (v = rest.getLastD e1)) := by
  obtain ⟨m, hm, hmem, hall, heq⟩ :=
    compute_histogram_metrics_eq values e0 e1 rest hv hchain
  have hchain2 : List.Chain' (· < ·) (e1 :: rest) := (List.chain'_cons.mp hchain).2
  have hL : e1 ≤ rest.getLastD e1 := chain_le_getLastD hchain2
  refine ⟨_, heq, ?_, ?_⟩
  · simp only [List.length_append, List.length_cons, List.length_map, List.length_zip,
      List.length_nil]
    omega
  · simp only [List.sum_cons, List.sum_append]
    rw [← histCountsAux_eq_map, histCountsAux_sum values e1 rest hchain2]
    have h1 := countP_le_add_between values hL
    have h2 := countP_le_add_ge values (rest.getLastD e1)
    simp only [List.sum_cons, List.sum_nil]
    omega

/-- Claim C2 witness: `claim_C2_amended` applied at `[20]` with edges
`[0, 10, 20]` — the double-counting input — hypotheses discharged by
evaluation. -/
theorem claim_C2_witness :
    (([20] : List ℚ) ≠ [] ∧ List.Chain' (· < ·) ([0, 10, 20] : List ℚ))
    ∧ ∃ h : Histogram,
        compute_histogram_metrics [20] ((0 : ℚ) :: (10 : ℚ) :: [20]) = some h
        ∧ h.bins.length = h.cnts.length
        ∧ h.cnts.sum
            = ([20] : List ℚ).length
              + ([20] : List ℚ).countP
                  (fun v => decide (v = ([20] : List ℚ).getLastD 10)) :=
  ⟨⟨by decide, by norm_num [List.chain'_cons, List.chain'_singleton]⟩,
    claim_C2_amended [20] 0 10 [20] (by decide)
      (by norm_num [List.chain'_cons, List.chain'_singleton])⟩

/-- Claim C8 counterexample: on `[1, 2, 3]` the code's `std` squares to 1
(the sample variance, ddof = 1), while the population standard deviation of
the claim squares to 2/3; the two squares differ, so the (nonnegative)
standard deviations differ. -/
theorem claim_C8_counterexample :
    (compute_distribution_metrics [1, 2, 3]).stdSq = some 1
    ∧ spec_popVariance [1, 2, 3] = 2 / 3
    ∧ (1 : ℚ) ≠ 2 / 3 :=
  ⟨by norm_num [compute_distribution_metrics, stdSquared],
    by norm_num [spec_popVariance], by norm_num⟩

/-- Claim C8 amended: the `std` field is the *sample* (ddof = 1) standard
deviation — its square is `n / (n - 1)` times the population variance —
whenever the count is at least 2, and it is null when the count is less
than 2. -/
theorem claim_C8_amended (values : List ℚ) :
    (2 ≤ values.length →
      (compute_distribution_metrics values).stdSq
        = some (spec_popVariance values * values.length / ((values.length : ℚ) - 1)))
    ∧ (values.length < 2 → (compute_distribution_metrics values).stdSq = none) := by
  constructor
  · intro h
    have hn : (values.length : ℚ) ≠ 0 := Nat.cast_ne_zero.mpr (by omega)
    simp only [compute_distribution_metrics, stdSquared, if_pos h, spec_popVariance]
    congr 1
    rw [div_mul_cancel₀ _ hn]
  · intro h
    have hnot : ¬2 ≤ values.length := by omega
    simp only [compute_distribution_metrics, stdSquared, if_neg hnot]

/-- Claim C8 witness: `claim_C8_amended` applied at `[1, 2, 3]` (count 3)
and `[4]` (count 1), with the hypotheses discharged by evaluation. -/
theorem claim_C8_witness :
    (2 ≤ ([1, 2, 3] : List ℚ).length
      ∧ (compute_distribution_metrics [1, 2, 3]).stdSq
          = some (spec_popVariance [1, 2, 3] * ([1, 2, 3] : List ℚ).length
              / ((([1, 2, 3] : List ℚ).length : ℚ) - 1)))
    ∧ (([4] : List ℚ).length < 2
      ∧ (compute_distribution_metrics [4]).stdSq = none) :=
  ⟨⟨by decide, (claim_C8_amended [1, 2, 3]).1 (by decide)⟩,
    ⟨by decide, (claim_C8_amended [4]).2 (by decide)⟩⟩

/-- Claim C9 counterexample: the median of `[1, 2, 3, 4]` is 3 under the
code's quantile (polars' default `nearest` interpolation) but 5/2 under the
linear interpolation the claim asserts. -/
theorem claim_C9_counterexample :
    (compute_distribution_metrics [1, 2, 3, 4]).q50 = some 3
    ∧ spec_linear_quantile [1, 2, 3, 4] (1 / 2) = some (5 / 2)
    ∧ (3 : ℚ) ≠ 5 / 2 := by
  refine ⟨?_, ?_, by norm_num⟩
  · show polarsQuantile [1, 2, 3, 4] (1 / 2) = some 3
    rw [polarsQuantile, if_neg (by decide : ¬([1, 2, 3, 4] : List ℚ) = [])]
    norm_num [List.insertionSort, List.orderedInsert]
    decide
  · rw [spec_linear_quantile, if_neg (by decide : ¬([1, 2, 3, 4] : List ℚ) = [])]
    norm_num [List.insertionSort, List.orderedInsert]

/-- Claim C9 amended: all five quantile fields are computed by one and the
same method — the `nearest` rule, which sorts the values and selects the
order statistic at index `round((n - 1) * q)` — and the scenario holds:
`summarize([1,2,3,4,5])` yields min 1, max 5, mean 3, and median (p50) 3. -/
theorem claim_C9_amended (values : List ℚ) (hne : values ≠ []) :
    (∃ sorted : List ℚ, sorted.Perm values ∧ List.Sorted (· ≤ ·) sorted ∧
        ∀ q ∈ ([1 / 20, 1 / 4, 1 / 2, 3 / 4, 19 / 20] : List ℚ),
          polarsQuantile values q
            = some (sorted.getD (Int.toNat ⌊((sorted.length : ℚ) - 1) * q + 1 / 2⌋) 0))
    ∧ (compute_distribution_metrics values).q05 = polarsQuantile values (1 / 20)
    ∧ (compute_distribution_metrics values).q25 = polarsQuantile values (1 / 4)
    ∧ (compute_distribution_metrics values).q50 = polarsQuantile values (1 / 2)
    ∧ (compute_distribution_metrics values).q75 = polarsQuantile values (3 / 4)
    ∧ (compute_distribution_metrics values).q95 = polarsQuantile values (19 / 20)
    ∧ (compute_distribution_metrics [1, 2, 3, 4, 5]).min = some 1
    ∧ (compute_distribution_metrics [1, 2, 3, 4, 5]).max = some 5
    ∧ (compute_distribution_metrics [1, 2, 3, 4, 5]).mean = some 3
    ∧ (compute_distribution_metrics [1, 2, 3, 4, 5]).q50 = some 3 := by
  refine ⟨?_, rfl, rfl, rfl, rfl, rfl, by decide, by decide, ?_, ?_⟩
  · refine ⟨values.insertionSort (· ≤ ·), List.perm_insertionSort (· ≤ ·) values,
      List.sorted_insertionSort (· ≤ ·) values, ?_⟩
    intro q _
    rw [polarsQuantile, if_neg hne]
  · show seriesMean [1, 2, 3, 4, 5] = some 3
    rw [seriesMean, if_neg (by decide : ¬([1, 2, 3, 4, 5] : List ℚ) = [])]
    norm_num
  · show polarsQuantile [1, 2, 3, 4, 5] (1 / 2) = some 3
    rw [polarsQuantile, if_neg (by decide : ¬([1, 2, 3, 4, 5] : List ℚ) = [])]
    norm_num [List.insertionSort, List.orderedInsert]
    decide

/-- Claim C9 witness: `claim_C9_amended` applied at the scenario input
`[1, 2, 3, 4, 5]`, with its hypothesis discharged by evaluation. -/
theorem claim_C9_witness :
    (([1, 2, 3, 4, 5] : List ℚ) ≠ [])
    ∧ ((∃ sorted : List ℚ, sorted.Perm [1, 2, 3, 4, 5]
          ∧ List.Sorted (· ≤ ·) sorted ∧
          ∀ q ∈ ([1 / 20, 1 / 4, 1 / 2, 3 / 4, 19 / 20] : List ℚ),
            polarsQuantile [1, 2, 3, 4, 5] q
              = some (sorted.getD (Int.toNat ⌊((sorted.length : ℚ) - 1) * q + 1 / 2⌋) 0))
      ∧ (compute_distribution_metrics [1, 2, 3, 4, 5]).q05
          = polarsQuantile [1, 2, 3, 4, 5] (1 / 20)
      ∧ (compute_distribution_metrics [1, 2, 3, 4, 5]).q25
          = polarsQuantile [1, 2, 3, 4, 5] (1 / 4)
      ∧ (compute_distribution_metrics [1, 2, 3, 4, 5]).q50
          = polarsQuantile [1, 2, 3, 4, 5] (1 / 2)
      ∧ (compute_distribution_metrics [1, 2, 3, 4, 5]).q75
          = polarsQuantile [1, 2, 3, 4, 5] (3 / 4)
      ∧ (compute_distribution_metrics [1, 2, 3, 4, 5]).q95
          = polarsQuantile [1, 2, 3, 4, 5] (19 / 20)
      ∧ (compute_distribution_metrics [1, 2, 3, 4, 5]).min = some 1
      ∧ (compute_distribution_metrics [1, 2, 3, 4, 5]).max = some 5
      ∧ (compute_distribution_metrics [1, 2, 3, 4, 5]).mean = some 3
      ∧ (compute_distribution_metrics [1, 2, 3, 4, 5]).q50 = some 3) :=
  ⟨by decide, claim_C9_amended [1, 2, 3, 4, 5] (by decide)⟩

end DeltaInspect
